import Mathlib

/-
  Verification of the interactive shape composition in `src/main.js`
  (the variant with the removal-order sequencer, stage scaler, layout
  freezer and background-shape drag controller; its line numbers are the
  ones cited below).

  The embedding is shallow: DOM elements become records of the inline
  style fields the script reads and writes, event handlers become step
  functions on those records, and the `setTimeout` callbacks become
  explicit timer events.
-/

set_option maxRecDepth 8000

namespace Gehry

/-! ## String helpers mirroring the JavaScript string primitives used -/

/-- Strip `pat` from the front of a character list, returning the remainder
when `pat` is a prefix and `none` otherwise. -/
def stripPrefixL : List Char → List Char → Option (List Char)
  | [], s => some s
  | _ :: _, [] => none
  | p :: ps, c :: cs => if p = c then stripPrefixL ps cs else none

/-- First-occurrence replacement on character lists: the semantics of
JavaScript `String.prototype.replace` when the pattern is a plain string
(only the first occurrence is replaced). -/
def replaceFirstL (pat rep : List Char) : List Char → List Char
  | [] =>
    match stripPrefixL pat ([] : List Char) with
    | some rest => rep ++ rest
    | none => []
  | c :: cs =>
    match stripPrefixL pat (c :: cs) with
    | some rest => rep ++ rest
    | none => c :: replaceFirstL pat rep cs

/-- JavaScript `s.replace(pat, rep)` for a plain-string pattern. -/
def jsReplaceFirst (s pat rep : String) : String :=
  String.mk (replaceFirstL pat.data rep.data s.data)

/-- Does a character list contain `pat` as a contiguous sublist? -/
def containsL (pat : List Char) : List Char → Bool
  | [] => (stripPrefixL pat ([] : List Char)).isSome
  | c :: cs => (stripPrefixL pat (c :: cs)).isSome || containsL pat cs

/-- Substring test on strings. -/
def containsTok (s pat : String) : Bool := containsL pat.data s.data

/-- The empty string, named so it can be passed as a function argument. -/
def emptyStr : String := ""

/-! ## Removal sequencer data model (`src/main.js` lines 310-320, 378-441) -/

/-- `removalOrder` (`src/main.js` lines 311-319): the fixed list of shape
identifier classes defining the only valid activation sequence. -/
def removalOrder : List String :=
  ["dark-red-trapezoid", "main-orange-triangle", "dark-green-quarter-circle",
   "bright-blue-rectangle", "orange-polygon", "red-triangle", "green-square"]

/-- The inline state of one `.shape` element that the script reads or
writes: its static class list, the `moved-out` class, the inline
`transform` and `pointer-events` styles, the number of pending 800 ms
`setTimeout` callbacks scheduled by `moveShapeOut`, and whether the
pointer is currently over the element (browser hover state, used only to
express which `mouseenter`/`mouseleave` events can fire). -/
structure Shape where
  classes : List String
  movedOut : Bool
  transform : String
  pointerEvents : String
  pendingInert : Nat
  hovered : Bool
deriving DecidableEq

/-- The sequencer state: the `.shape` NodeList in DOM order plus the
module-level `currentRemovalIndex`. -/
structure SeqState where
  shapes : List Shape
  currentRemovalIndex : Nat
deriving DecidableEq

/-- The string appended by the `mouseenter` handler (line 410). -/
def scaleToken : String := " scale(1.05)"

/-- The element's `classList` as the script observes it. -/
def classListOf (sh : Shape) : List String :=
  sh.classes ++ (if sh.movedOut then ["moved-out"] else [])

/-- `Array.from(this.classList).find(cls => removalOrder.includes(cls))`
(lines 385, 400). -/
def shapeClass (sh : Shape) : Option String :=
  (classListOf sh).find? (fun cls => removalOrder.contains cls)

/-- `removalOrder.indexOf(c)` with JavaScript semantics: the index of the
first occurrence, `-1` when absent. -/
def jsIndexOf (l : List String) (c : String) : Int :=
  match l.findIdx? (fun x => x == c) with
  | some k => (k : Int)
  | none => -1

/-- `moveShapeOut` (the authoritative later definition, lines 577-594):
no-op when the shape already carries `moved-out`; otherwise add the class
and schedule the 800 ms timer that will set `pointer-events: none`.
The ripple element and the click sound have no state the claims mention. -/
def moveShapeOut (sh : Shape) : Shape :=
  if sh.movedOut then sh
  else { sh with movedOut := true, pendingInert := sh.pendingInert + 1 }

/-- The scheduled `setTimeout` callback inside `moveShapeOut` firing
(lines 591-593): sets `pointer-events: none` on the shape. -/
def firePointerTimer (sh : Shape) : Shape :=
  { sh with pendingInert := sh.pendingInert - 1, pointerEvents := "none" }

/-- Apply `f` to the shape at index `i`, if it exists. -/
def modifyShape (s : SeqState) (i : Nat) (f : Shape → Shape) : SeqState :=
  match s.shapes.get? i with
  | some sh => { s with shapes := s.shapes.set i (f sh) }
  | none => s

/-- Body of the click handler (lines 383-392) and of the Enter/Space
keydown handler (lines 396-406): resolve the shape's removal-order class;
if it is the one at `currentRemovalIndex`, call `moveShapeOut` and
advance the index; otherwise do nothing. -/
def clickShape (s : SeqState) (i : Nat) : SeqState :=
  match s.shapes.get? i with
  | none => s
  | some sh =>
    match shapeClass sh with
    | none => s
    | some c =>
      if jsIndexOf removalOrder c = (s.currentRemovalIndex : Int) then
        { shapes := s.shapes.set i (moveShapeOut sh),
          currentRemovalIndex := s.currentRemovalIndex + 1 }
      else s

/-- The numeric-key branch of `setupKeyboardControls` (lines 456-464):
keys `1`-`5` force `moveShapeOut` on the shape at that DOM position,
without touching `currentRemovalIndex`. -/
def numKeyStep (s : SeqState) (n : Nat) : SeqState :=
  if n ∈ [1, 2, 3, 4, 5] then
    match s.shapes.get? (n - 1) with
    | some sh => { s with shapes := s.shapes.set (n - 1) (moveShapeOut sh) }
    | none => s
  else s

/-- Per-shape body of `resetAllShapes` (lines 495-499). -/
def resetShape (sh : Shape) : Shape :=
  { sh with movedOut := false, pointerEvents := "auto",
            transform := jsReplaceFirst sh.transform scaleToken emptyStr }

/-- `resetAllShapes` (lines 492-505): clear `moved-out`, re-enable
pointer events, strip the hover scale from the transform, and reset
`currentRemovalIndex` to 0. -/
def resetAllShapes (s : SeqState) : SeqState :=
  { shapes := s.shapes.map resetShape, currentRemovalIndex := 0 }

/-- `mouseenter` handler (lines 409-411): append the hover scale. -/
def enterShape (sh : Shape) : Shape :=
  { sh with transform := sh.transform ++ scaleToken, hovered := true }

/-- `mouseleave` handler (lines 413-415): strip the hover scale. -/
def leaveShape (sh : Shape) : Shape :=
  { sh with transform := jsReplaceFirst sh.transform scaleToken emptyStr,
            hovered := false }

/-- The discrete inputs the sequencer reacts to. -/
inductive SeqEvent where
  | click (i : Nat)
  | keyActivate (i : Nat)
  | numKey (n : Nat)
  | resetKey
  | mouseEnter (i : Nat)
  | mouseLeave (i : Nat)
  | timerFire (i : Nat)
deriving DecidableEq

/-- One step of the sequencer: dispatch the event to its handler. -/
def seqStep (s : SeqState) : SeqEvent → SeqState
  | .click i => clickShape s i
  | .keyActivate i => clickShape s i
  | .numKey n => numKeyStep s n
  | .resetKey => resetAllShapes s
  | .mouseEnter i => modifyShape s i enterShape
  | .mouseLeave i => modifyShape s i leaveShape
  | .timerFire i => modifyShape s i firePointerTimer

/-- Run a list of events in order. -/
def runSeq (s : SeqState) : List SeqEvent → SeqState
  | [] => s
  | e :: es => runSeq (seqStep s e) es

/-- A freshly loaded shape: its removal-order class on the element, no
inline transform or pointer-events style, no pending timers. -/
def initShape (id : String) : Shape :=
  { classes := ["shape", id], movedOut := false, transform := "",
    pointerEvents := "", pendingInert := 0, hovered := false }

/-- The page-load state for a given DOM order of identifier classes. -/
def initState (ids : List String) : SeqState :=
  { shapes := ids.map initShape, currentRemovalIndex := 0 }

/-- Which events the browser can actually deliver in a state:
`mouseenter` only on a non-hovered element, `mouseleave` only on a
hovered one, and a timer can only fire if one is pending. All other
events are unrestricted. -/
def validEvent (s : SeqState) : SeqEvent → Prop
  | .mouseEnter i => ∃ sh, s.shapes.get? i = some sh ∧ sh.hovered = false
  | .mouseLeave i => ∃ sh, s.shapes.get? i = some sh ∧ sh.hovered = true
  | .timerFire i => ∃ sh, s.shapes.get? i = some sh ∧ 0 < sh.pendingInert
  | _ => True

/-- States reachable from page load through deliverable events. -/
inductive Reachable (ids : List String) : SeqState → Prop where
  | init : Reachable ids (initState ids)
  | step {s : SeqState} {e : SeqEvent} :
      Reachable ids s → validEvent s e → Reachable ids (seqStep s e)

/-- Modelled from the spec: the completion banner does not appear in any
`src/main.js` variant (only `removalOrder` and `currentRemovalIndex` do);
per the spec it is "shown when index reaches N, hidden by reset", so its
visibility is exactly `removalOrder.length ≤ currentRemovalIndex`. -/
def completionVisible (s : SeqState) : Bool :=
  decide (removalOrder.length ≤ s.currentRemovalIndex)

/-! ## List access helper lemmas -/

lemma get?_set_self {α : Type} (l : List α) (i : Nat) (a : α) (h : i < l.length) :
    (l.set i a).get? i = some a := by
  rw [List.get?_eq_getElem?]
  simp [List.getElem?_set_self, h]

lemma get?_set_of_ne {α : Type} (l : List α) {i j : Nat} (a : α) (h : i ≠ j) :
    (l.set i a).get? j = l.get? j := by
  simp [List.get?_eq_getElem?, List.getElem?_set_ne h]

lemma lt_of_get? {α : Type} {l : List α} {i : Nat} {a : α} (h : l.get? i = some a) :
    i < l.length := by
  rw [List.get?_eq_getElem?] at h
  exact (List.getElem?_eq_some.mp h).1

lemma get?_map {α β : Type} (l : List α) (f : α → β) (i : Nat) :
    (l.map f).get? i = (l.get? i).map f := by
  simp [List.get?_eq_getElem?]

/-! ## The hover/transform invariant

The inline `transform` of a sequencer shape is only touched by the hover
handlers (append/strip `" scale(1.05)"`) and by `resetAllShapes` (strip),
so in every reachable state it is either empty or exactly the hover
token, and the token is present only while the pointer is over the
element. -/

/-- Invariant on one shape's inline transform. -/
def ShapeInv (sh : Shape) : Prop :=
  sh.transform = "" ∨ (sh.transform = scaleToken ∧ sh.hovered = true)

lemma shapeInv_initShape (id : String) : ShapeInv (initShape id) :=
  Or.inl rfl

lemma shapeInv_moveShapeOut {sh : Shape} (h : ShapeInv sh) :
    ShapeInv (moveShapeOut sh) := by
  unfold moveShapeOut
  split
  · exact h
  · exact h

lemma shapeInv_fireTimer {sh : Shape} (h : ShapeInv sh) :
    ShapeInv (firePointerTimer sh) := h

lemma resetShape_transform {sh : Shape} (h : ShapeInv sh) :
    (resetShape sh).transform = "" := by
  rcases h with h | ⟨h, _⟩ <;> simp only [resetShape] <;> rw [h] <;> decide

lemma shapeInv_resetShape {sh : Shape} (h : ShapeInv sh) :
    ShapeInv (resetShape sh) :=
  Or.inl (resetShape_transform h)

lemma shapeInv_enterShape {sh : Shape} (h : ShapeInv sh) (hh : sh.hovered = false) :
    ShapeInv (enterShape sh) := by
  rcases h with h | ⟨_, h2⟩
  · right
    constructor
    · simp only [enterShape]
      rw [h]
      decide
    · rfl
  · rw [hh] at h2
    exact absurd h2 (by decide)

lemma shapeInv_leaveShape {sh : Shape} (h : ShapeInv sh) :
    ShapeInv (leaveShape sh) := by
  left
  rcases h with h | ⟨h, _⟩ <;> simp only [leaveShape] <;> rw [h] <;> decide

/-- All shapes of a state satisfy the transform invariant. -/
def StateInv (s : SeqState) : Prop :=
  ∀ sh ∈ s.shapes, ShapeInv sh

lemma stateInv_init (ids : List String) : StateInv (initState ids) := by
  intro sh hsh
  simp only [initState, List.mem_map] at hsh
  obtain ⟨id, _, rfl⟩ := hsh
  exact shapeInv_initShape id

lemma stateInv_set_move {s : SeqState} (hinv : StateInv s) {i : Nat} {sh₀ : Shape}
    (hget : s.shapes.get? i = some sh₀) :
    ∀ sh ∈ s.shapes.set i (moveShapeOut sh₀), ShapeInv sh := by
  intro sh hsh
  rcases List.mem_or_eq_of_mem_set hsh with h | rfl
  · exact hinv sh h
  · exact shapeInv_moveShapeOut (hinv sh₀ (List.get?_mem hget))

lemma stateInv_clickShape {s : SeqState} (hinv : StateInv s) (i : Nat) :
    StateInv (clickShape s i) := by
  unfold clickShape
  split
  · exact hinv
  next sh₀ hget =>
    split
    · exact hinv
    next c hclass =>
      split
      · exact stateInv_set_move hinv hget
      · exact hinv

lemma stateInv_numKeyStep {s : SeqState} (hinv : StateInv s) (n : Nat) :
    StateInv (numKeyStep s n) := by
  unfold numKeyStep
  split
  · split
    next sh₀ hget => exact stateInv_set_move hinv hget
    · exact hinv
  · exact hinv

lemma stateInv_reset {s : SeqState} (hinv : StateInv s) :
    StateInv (resetAllShapes s) := by
  intro sh hsh
  simp only [resetAllShapes, List.mem_map] at hsh
  obtain ⟨sh₀, hsh₀, rfl⟩ := hsh
  exact shapeInv_resetShape (hinv sh₀ hsh₀)

lemma stateInv_seqStep {s : SeqState} {e : SeqEvent} (hinv : StateInv s)
    (hv : validEvent s e) : StateInv (seqStep s e) := by
  cases e with
  | click i => exact stateInv_clickShape hinv i
  | keyActivate i => exact stateInv_clickShape hinv i
  | numKey n => exact stateInv_numKeyStep hinv n
  | resetKey => exact stateInv_reset hinv
  | mouseEnter i =>
    obtain ⟨sh₀, hget, hh⟩ := hv
    intro sh hsh
    simp only [seqStep, modifyShape, hget] at hsh
    rcases List.mem_or_eq_of_mem_set hsh with h | rfl
    · exact hinv sh h
    · exact shapeInv_enterShape (hinv sh₀ (List.get?_mem hget)) hh
  | mouseLeave i =>
    obtain ⟨sh₀, hget, _⟩ := hv
    intro sh hsh
    simp only [seqStep, modifyShape, hget] at hsh
    rcases List.mem_or_eq_of_mem_set hsh with h | rfl
    · exact hinv sh h
    · exact shapeInv_leaveShape (hinv sh₀ (List.get?_mem hget))
  | timerFire i =>
    obtain ⟨sh₀, hget, _⟩ := hv
    intro sh hsh
    simp only [seqStep, modifyShape, hget] at hsh
    rcases List.mem_or_eq_of_mem_set hsh with h | rfl
    · exact hinv sh h
    · exact shapeInv_fireTimer (hinv sh₀ (List.get?_mem hget))

lemma stateInv_of_reachable {ids : List String} {s : SeqState}
    (h : Reachable ids s) : StateInv s := by
  induction h with
  | init => exact stateInv_init ids
  | step _ hv ih => exact stateInv_seqStep ih hv

/-! ## Bridging `shapeClass`/`jsIndexOf` with positions in `removalOrder` -/

lemma shapeClass_mem {sh : Shape} {c : String} (h : shapeClass sh = some c) :
    c ∈ removalOrder := by
  have := List.find?_some h
  simpa using this

lemma jsIndexOf_mem {c : String} (h : c ∈ removalOrder) :
    ∃ k : Nat, jsIndexOf removalOrder c = (k : Int) ∧ removalOrder.get? k = some c := by
  fin_cases h
  exacts [⟨0, by decide, by decide⟩, ⟨1, by decide, by decide⟩, ⟨2, by decide, by decide⟩,
    ⟨3, by decide, by decide⟩, ⟨4, by decide, by decide⟩, ⟨5, by decide, by decide⟩,
    ⟨6, by decide, by decide⟩]

lemma jsIndexOf_of_get? {k : Nat} {c : String} (h : removalOrder.get? k = some c) :
    jsIndexOf removalOrder c = (k : Int) := by
  have hk : k < removalOrder.length := lt_of_get? h
  have hk7 : k < 7 := hk
  interval_cases k <;> simp only [removalOrder, List.get?] at h <;> injection h with h <;>
    subst h <;> decide

/-! ## Frame lemmas for single steps -/

lemma get?_set_cases {l : List Shape} {i j : Nat} {sh sh₀ : Shape} (f : Shape → Shape)
    (hget : l.get? i = some sh) (hget0 : l.get? j = some sh₀) :
    (l.set j (f sh₀)).get? i = some sh ∨ (l.set j (f sh₀)).get? i = some (f sh) := by
  by_cases hij : j = i
  · subst hij
    rw [hget] at hget0
    injection hget0 with h
    subst h
    right
    exact get?_set_self _ _ _ (lt_of_get? hget)
  · left
    rw [get?_set_of_ne _ _ hij]
    exact hget

lemma clickShape_get?_cases (s : SeqState) (j i : Nat) (sh : Shape)
    (hget : s.shapes.get? i = some sh) :
    (clickShape s j).shapes.get? i = some sh ∨
    (clickShape s j).shapes.get? i = some (moveShapeOut sh) := by
  unfold clickShape
  split
  · exact Or.inl hget
  next sh₀ hget0 =>
    split
    · exact Or.inl hget
    next c hclass =>
      split
      · exact get?_set_cases moveShapeOut hget hget0
      · exact Or.inl hget

lemma numKeyStep_get?_cases (s : SeqState) (n i : Nat) (sh : Shape)
    (hget : s.shapes.get? i = some sh) :
    (numKeyStep s n).shapes.get? i = some sh ∨
    (numKeyStep s n).shapes.get? i = some (moveShapeOut sh) := by
  unfold numKeyStep
  split
  · split
    next sh₀ hget0 => exact get?_set_cases moveShapeOut hget hget0
    · exact Or.inl hget
  · exact Or.inl hget

lemma modifyShape_get?_cases (s : SeqState) (j i : Nat) (f : Shape → Shape) (sh : Shape)
    (hget : s.shapes.get? i = some sh) :
    (modifyShape s j f).shapes.get? i = some sh ∨
    (modifyShape s j f).shapes.get? i = some (f sh) := by
  unfold modifyShape
  split
  next sh₀ hget0 => exact get?_set_cases f hget hget0
  · exact Or.inl hget

/-- After any non-reset event, the shape observed at position `i` is the old
shape or the old shape passed through exactly one of the four per-shape
mutators. -/
lemma seqStep_get?_cases (s : SeqState) (e : SeqEvent) (i : Nat) (sh : Shape)
    (hget : s.shapes.get? i = some sh) (hne : e ≠ SeqEvent.resetKey) :
    (seqStep s e).shapes.get? i = some sh ∨
    (seqStep s e).shapes.get? i = some (moveShapeOut sh) ∨
    (seqStep s e).shapes.get? i = some (enterShape sh) ∨
    (seqStep s e).shapes.get? i = some (leaveShape sh) ∨
    (seqStep s e).shapes.get? i = some (firePointerTimer sh) := by
  cases e with
  | click j =>
    rcases clickShape_get?_cases s j i sh hget with h | h
    · exact Or.inl h
    · exact Or.inr (Or.inl h)
  | keyActivate j =>
    rcases clickShape_get?_cases s j i sh hget with h | h
    · exact Or.inl h
    · exact Or.inr (Or.inl h)
  | numKey n =>
    rcases numKeyStep_get?_cases s n i sh hget with h | h
    · exact Or.inl h
    · exact Or.inr (Or.inl h)
  | resetKey => exact absurd rfl hne
  | mouseEnter j =>
    rcases modifyShape_get?_cases s j i enterShape sh hget with h | h
    · exact Or.inl h
    · exact Or.inr (Or.inr (Or.inl h))
  | mouseLeave j =>
    rcases modifyShape_get?_cases s j i leaveShape sh hget with h | h
    · exact Or.inl h
    · exact Or.inr (Or.inr (Or.inr (Or.inl h)))
  | timerFire j =>
    rcases modifyShape_get?_cases s j i firePointerTimer sh hget with h | h
    · exact Or.inl h
    · exact Or.inr (Or.inr (Or.inr (Or.inr h)))

/-- A moved-out, pointer-inert shape stays moved-out and pointer-inert
through any single non-reset event. -/
lemma inert_step {s : SeqState} {i : Nat} {sh : Shape} (e : SeqEvent)
    (hget : s.shapes.get? i = some sh) (hmo : sh.movedOut = true)
    (hpe : sh.pointerEvents = "none") (hne : e ≠ SeqEvent.resetKey) :
    ∃ sh₂, (seqStep s e).shapes.get? i = some sh₂ ∧
      sh₂.movedOut = true ∧ sh₂.pointerEvents = "none" := by
  rcases seqStep_get?_cases s e i sh hget hne with h | h | h | h | h
  · exact ⟨sh, h, hmo, hpe⟩
  · refine ⟨_, h, ?_, ?_⟩ <;> simp [moveShapeOut, hmo, hpe]
  · exact ⟨_, h, hmo, hpe⟩
  · exact ⟨_, h, hmo, hpe⟩
  · exact ⟨_, h, hmo, rfl⟩

/-- A moved-out, pointer-inert shape stays so through any reset-free
sequence of events. -/
lemma inert_run {i : Nat} (es : List SeqEvent) {s : SeqState} {sh : Shape}
    (hget : s.shapes.get? i = some sh) (hmo : sh.movedOut = true)
    (hpe : sh.pointerEvents = "none") (hres : SeqEvent.resetKey ∉ es) :
    ∃ sh₂, (runSeq s es).shapes.get? i = some sh₂ ∧
      sh₂.movedOut = true ∧ sh₂.pointerEvents = "none" := by
  induction es generalizing s sh with
  | nil => exact ⟨sh, hget, hmo, hpe⟩
  | cons e es ih =>
    have hne : e ≠ SeqEvent.resetKey := by
      intro h
      exact hres (h ▸ List.mem_cons_self e es)
    obtain ⟨sh₂, h1, h2, h3⟩ := inert_step e hget hmo hpe hne
    exact ih h1 h2 h3 (fun h => hres (List.mem_cons_of_mem _ h))

/-! ## Claims C1 and C2 -/

/-- C1: activating (click or Enter/Space) a shape whose identifier class is
not `removalOrder[currentRemovalIndex]` leaves the whole sequencer state
literally unchanged: the index does not advance, no shape gains the
`moved-out` class, and no shape's `pointer-events` or `transform` styles
change. -/
theorem C1_out_of_order_noop (s : SeqState) (i : Nat) (sh : Shape)
    (hget : s.shapes.get? i = some sh)
    (hne : shapeClass sh ≠ removalOrder.get? s.currentRemovalIndex) :
    seqStep s (SeqEvent.click i) = s ∧ seqStep s (SeqEvent.keyActivate i) = s := by
  have hmain : clickShape s i = s := by
    rcases hclass : shapeClass sh with _ | c
    · simp only [clickShape, hget, hclass]
    · have hcond : ¬(jsIndexOf removalOrder c = (s.currentRemovalIndex : Int)) := by
        intro hcond
        have hc : c ∈ removalOrder := shapeClass_mem hclass
        obtain ⟨k, hk1, hk2⟩ := jsIndexOf_mem hc
        rw [hk1] at hcond
        have hkidx : k = s.currentRemovalIndex := by exact_mod_cast hcond
        rw [hkidx] at hk2
        exact hne (by rw [hclass, hk2])
      simp only [clickShape, hget, hclass, hcond, if_false]
  exact ⟨hmain, hmain⟩

/-- C1 witness: in the freshly loaded page (shapes in removal order),
clicking shape 1 while the index still expects shape 0 is a no-op. -/
theorem C1_out_of_order_noop_witness :
    seqStep (initState removalOrder) (SeqEvent.click 1) = initState removalOrder :=
  (C1_out_of_order_noop (initState removalOrder) 1 _ rfl (by decide)).1

/-- C2: clicking (or Enter/Space-activating) the not-yet-moved-out shape
whose identifier class is `removalOrder[currentRemovalIndex]` advances the
index by exactly 1, marks the shape `moved-out` and schedules the 800 ms
timer; when that timer fires the shape's `pointer-events` become `none`,
and the moved-out/pointer-inert state then persists through every event
other than an explicit reset. -/
theorem C2_head_activation (s : SeqState) (i : Nat) (sh : Shape) {c : String}
    (hget : s.shapes.get? i = some sh)
    (hmoved : sh.movedOut = false)
    (hclass : shapeClass sh = some c)
    (hhead : removalOrder.get? s.currentRemovalIndex = some c) :
    (seqStep s (SeqEvent.click i)).currentRemovalIndex = s.currentRemovalIndex + 1 ∧
    seqStep s (SeqEvent.keyActivate i) = seqStep s (SeqEvent.click i) ∧
    (seqStep s (SeqEvent.click i)).shapes.get? i = some (moveShapeOut sh) ∧
    (moveShapeOut sh).movedOut = true ∧
    (moveShapeOut sh).pendingInert = sh.pendingInert + 1 ∧
    (∃ sh₂, (seqStep (seqStep s (SeqEvent.click i)) (SeqEvent.timerFire i)).shapes.get? i
        = some sh₂ ∧ sh₂.pointerEvents = "none" ∧ sh₂.movedOut = true) ∧
    (∀ (s₂ : SeqState) (sh₂ : Shape) (es : List SeqEvent),
        s₂.shapes.get? i = some sh₂ → sh₂.movedOut = true →
        sh₂.pointerEvents = "none" → SeqEvent.resetKey ∉ es →
        ∃ sh₃, (runSeq s₂ es).shapes.get? i = some sh₃ ∧
          sh₃.movedOut = true ∧ sh₃.pointerEvents = "none") := by
  have hidx : jsIndexOf removalOrder c = (s.currentRemovalIndex : Int) :=
    jsIndexOf_of_get? hhead
  have hstep : seqStep s (SeqEvent.click i) =
      { shapes := s.shapes.set i (moveShapeOut sh),
        currentRemovalIndex := s.currentRemovalIndex + 1 } := by
    show clickShape s i = _
    simp only [clickShape, hget, hclass, hidx, if_true]
  have hgeti : (seqStep s (SeqEvent.click i)).shapes.get? i = some (moveShapeOut sh) := by
    rw [hstep]
    exact get?_set_self _ _ _ (lt_of_get? hget)
  have hmo : (moveShapeOut sh).movedOut = true := by
    simp [moveShapeOut, hmoved]
  refine ⟨by rw [hstep], rfl, hgeti, hmo, by simp [moveShapeOut, hmoved], ?_, ?_⟩
  · refine ⟨firePointerTimer (moveShapeOut sh), ?_, rfl, hmo⟩
    show (modifyShape _ i firePointerTimer).shapes.get? i = _
    unfold modifyShape
    rw [hgeti]
    exact get?_set_self _ _ _ (lt_of_get? hgeti)
  · intro s₂ sh₂ es h1 h2 h3 h4
    exact inert_run es h1 h2 h3 h4

/-- C2 witness: in the freshly loaded page, clicking shape 0 (the head of
the removal order) advances the index to 1, and Enter/Space behaves the
same as the click. -/
theorem C2_head_activation_witness :
    (seqStep (initState removalOrder) (SeqEvent.click 0)).currentRemovalIndex = 1 ∧
    seqStep (initState removalOrder) (SeqEvent.keyActivate 0)
      = seqStep (initState removalOrder) (SeqEvent.click 0) := by
  have h := C2_head_activation (initState removalOrder) 0 _ rfl rfl rfl rfl
  exact ⟨h.1, h.2.1⟩

/-! ## Claim C3: completion state -/

/-- The in-order activation sequence: each click hits the shape whose
identifier is the current head (shapes laid out in removal order). -/
def sevenClicks : List SeqEvent :=
  [SeqEvent.click 0, SeqEvent.click 1, SeqEvent.click 2, SeqEvent.click 3,
   SeqEvent.click 4, SeqEvent.click 5, SeqEvent.click 6]

/-- C3: the completion indicator is visible exactly when
`currentRemovalIndex` has reached the length of the removal order; it is
hidden at every smaller index; `resetAllShapes` hides it again; and the
in-order activation of all 7 shapes from the fresh page reaches the
visible-completion state while every proper prefix of that run leaves the
indicator hidden. -/
theorem C3_completion_indicator (s : SeqState) :
    (completionVisible s = true ↔ removalOrder.length ≤ s.currentRemovalIndex) ∧
    (s.currentRemovalIndex < removalOrder.length → completionVisible s = false) ∧
    completionVisible (resetAllShapes s) = false ∧
    completionVisible (runSeq (initState removalOrder) sevenClicks) = true ∧
    (∀ k : Nat, k < 7 →
      completionVisible (runSeq (initState removalOrder) (sevenClicks.take k)) = false) := by
  refine ⟨by simp [completionVisible], ?_, rfl, by decide, ?_⟩
  · intro hlt
    exact decide_eq_false (by omega)
  · intro k hk
    interval_cases k <;> decide

/-- C3 witness: three clicks in, the indicator is still hidden, while the
full in-order run shows it. -/
theorem C3_completion_indicator_witness :
    (3 : Nat) < 7 ∧
    completionVisible (runSeq (initState removalOrder) (sevenClicks.take 3)) = false ∧
    completionVisible (runSeq (initState removalOrder) sevenClicks) = true :=
  ⟨by decide, (C3_completion_indicator (initState removalOrder)).2.2.2.2 3 (by decide),
    (C3_completion_indicator (initState removalOrder)).2.2.2.1⟩

/-! ## Claim C4: reset is idempotent -/

/-- Effective CSS transform of an element: a nonempty inline `transform`
style overrides the stylesheet-authored transform. -/
def effectiveTransform (authored inl : String) : String :=
  if inl = "" then authored else inl

lemma reset_idem_of_inv {sh : Shape} (h : ShapeInv sh) :
    resetShape (resetShape sh) = resetShape sh := by
  have hh : jsReplaceFirst (jsReplaceFirst sh.transform scaleToken emptyStr) scaleToken emptyStr
      = jsReplaceFirst sh.transform scaleToken emptyStr := by
    rcases h with h | ⟨h, _⟩ <;> rw [h] <;> decide
  show ({ sh with
            movedOut := false,
            pointerEvents := "auto",
            transform := jsReplaceFirst
              (jsReplaceFirst sh.transform scaleToken emptyStr) scaleToken emptyStr } : Shape)
        = _
  rw [hh]
  rfl

/-- C4: from every reachable state, `resetAllShapes` is idempotent and
establishes: index 0, every shape's `moved-out` flag cleared,
`pointer-events: auto`, inline transform cleared (so the authored
stylesheet transform governs again), and the completion indicator hidden. -/
theorem C4_reset_idempotent (ids : List String) (s : SeqState)
    (h : Reachable ids s) :
    resetAllShapes (resetAllShapes s) = resetAllShapes s ∧
    (resetAllShapes s).currentRemovalIndex = 0 ∧
    (∀ sh ∈ (resetAllShapes s).shapes,
        sh.movedOut = false ∧ sh.pointerEvents = "auto" ∧ sh.transform = "" ∧
        ∀ a : String, effectiveTransform a sh.transform = a) ∧
    completionVisible (resetAllShapes s) = false := by
  have hinv := stateInv_of_reachable h
  refine ⟨?_, rfl, ?_, rfl⟩
  · show ({ shapes := (s.shapes.map resetShape).map resetShape,
              currentRemovalIndex := 0 } : SeqState) = _
    rw [List.map_map]
    congr 1
    exact List.map_congr_left (fun sh hsh => reset_idem_of_inv (hinv sh hsh))
  · intro sh hsh
    simp only [resetAllShapes, List.mem_map] at hsh
    obtain ⟨sh₀, h₀, rfl⟩ := hsh
    have ht := resetShape_transform (hinv sh₀ h₀)
    exact ⟨rfl, rfl, ht, fun a => by simp [effectiveTransform, ht]⟩

/-- C4 witness: after clicking the head shape on the fresh page (a
reachable state), one reset and two resets agree, and the index is 0. -/
theorem C4_reset_idempotent_witness :
    resetAllShapes (resetAllShapes (seqStep (initState removalOrder) (SeqEvent.click 0)))
      = resetAllShapes (seqStep (initState removalOrder) (SeqEvent.click 0)) ∧
    (resetAllShapes (seqStep (initState removalOrder) (SeqEvent.click 0))).currentRemovalIndex
      = 0 := by
  have h := C4_reset_idempotent removalOrder
    (seqStep (initState removalOrder) (SeqEvent.click 0))
    (Reachable.step Reachable.init trivial)
  exact ⟨h.1, h.2.1⟩

/-! ## Claim C10: numeric-key force activation -/

lemma numKey_preserves_index (s : SeqState) (m : Nat) :
    (seqStep s (SeqEvent.numKey m)).currentRemovalIndex = s.currentRemovalIndex := by
  show (numKeyStep s m).currentRemovalIndex = _
  unfold numKeyStep
  split
  · split <;> rfl
  · rfl

lemma numKeys_run_index (s : SeqState) (es : List SeqEvent)
    (h : ∀ e ∈ es, ∃ m : Nat, e = SeqEvent.numKey m) :
    (runSeq s es).currentRemovalIndex = s.currentRemovalIndex := by
  induction es generalizing s with
  | nil => rfl
  | cons e es ih =>
    obtain ⟨m, rfl⟩ := h e (List.mem_cons_self e es)
    show (runSeq (seqStep s (SeqEvent.numKey m)) es).currentRemovalIndex = _
    rw [ih _ (fun e' he' => h e' (List.mem_cons_of_mem _ he')), numKey_preserves_index]

/-- C10: a numeric key `1`-`5` calls `moveShapeOut` on the shape at that
DOM position but never modifies `currentRemovalIndex`; consequently no
sequence consisting only of numeric-key presses changes the index, and
from any not-yet-complete state force-activation alone can never make the
completion indicator visible. -/
theorem C10_numkey_never_completes (s : SeqState) (n : Nat) (sh : Shape)
    (hn : n ∈ [1, 2, 3, 4, 5]) (hget : s.shapes.get? (n - 1) = some sh) :
    seqStep s (SeqEvent.numKey n) =
      { s with shapes := s.shapes.set (n - 1) (moveShapeOut sh) } ∧
    (seqStep s (SeqEvent.numKey n)).currentRemovalIndex = s.currentRemovalIndex ∧
    (∀ es : List SeqEvent, (∀ e ∈ es, ∃ m : Nat, e = SeqEvent.numKey m) →
        (runSeq s es).currentRemovalIndex = s.currentRemovalIndex) ∧
    (s.currentRemovalIndex < removalOrder.length →
      ∀ es : List SeqEvent, (∀ e ∈ es, ∃ m : Nat, e = SeqEvent.numKey m) →
        completionVisible (runSeq s es) = false) := by
  refine ⟨?_, numKey_preserves_index s n, numKeys_run_index s, ?_⟩
  · show numKeyStep s n = _
    unfold numKeyStep
    rw [if_pos hn, hget]
  · intro hlt es hes
    unfold completionVisible
    rw [numKeys_run_index s es hes]
    exact decide_eq_false (by omega)

/-- C10 witness: pressing keys 1 and 2 on the fresh page leaves the index
at 0 and the completion indicator hidden. -/
theorem C10_numkey_never_completes_witness :
    (runSeq (initState removalOrder)
        [SeqEvent.numKey 1, SeqEvent.numKey 2]).currentRemovalIndex = 0 ∧
    completionVisible (runSeq (initState removalOrder)
        [SeqEvent.numKey 1, SeqEvent.numKey 2]) = false := by
  have h := C10_numkey_never_completes (initState removalOrder) 1 _ (by decide) rfl
  have hes : ∀ e ∈ [SeqEvent.numKey 1, SeqEvent.numKey 2],
      ∃ m : Nat, e = SeqEvent.numKey m := by
    intro e he
    simp only [List.mem_cons, List.not_mem_nil, or_false] at he
    rcases he with rfl | rfl
    · exact ⟨1, rfl⟩
    · exact ⟨2, rfl⟩
  exact ⟨h.2.2.1 _ hes, h.2.2.2 (by decide) _ hes⟩

/-! ## Claim C9: hover zeroes rotation and leave reverts -/

/-- The CSS function name whose presence in a transform value contributes
rotation. -/
def rotateMark : String := "rotate"

/-- A transform value with no `rotate(...)` component applies zero
rotation. -/
def rotationIsZero (tf : String) : Bool := !(containsTok tf rotateMark)

/-- The substring witnessing the hover growth factor. -/
def growMark : String := "scale(1.05)"

/-- A stylesheet-authored transform carrying a rotation, for witnesses. -/
def sampleAuthored : String := "rotate(15deg)"

lemma rotationIsZero_sampleAuthored : rotationIsZero sampleAuthored = false := by
  decide

/-- C9: on any shape of a reachable state that is not currently hovered
(so its inline transform is still the authored-empty one), `mouseenter`
writes the inline transform `" scale(1.05)"`; since inline style
overrides the stylesheet, the effective transform then has zero rotation
regardless of the authored rotation (and contains the slight growth
factor); `mouseleave` restores the shape exactly to its pre-hover
state. -/
theorem C9_hover_rotation (ids : List String) (s : SeqState) (i : Nat) (sh : Shape)
    (hr : Reachable ids s) (hget : s.shapes.get? i = some sh)
    (hh : sh.hovered = false) :
    (seqStep s (SeqEvent.mouseEnter i)).shapes.get? i = some (enterShape sh) ∧
    (enterShape sh).transform = scaleToken ∧
    (∀ a : String,
        rotationIsZero (effectiveTransform a (enterShape sh).transform) = true) ∧
    containsTok (enterShape sh).transform growMark = true ∧
    (seqStep (seqStep s (SeqEvent.mouseEnter i))
        (SeqEvent.mouseLeave i)).shapes.get? i = some sh := by
  have hinv := stateInv_of_reachable hr
  have ht : sh.transform = "" := by
    rcases hinv sh (List.get?_mem hget) with h | ⟨_, h2⟩
    · exact h
    · rw [hh] at h2
      exact absurd h2 (by decide)
  have htok : (enterShape sh).transform = scaleToken := by
    show sh.transform ++ scaleToken = scaleToken
    rw [ht]
    decide
  have h1 : (seqStep s (SeqEvent.mouseEnter i)).shapes.get? i = some (enterShape sh) := by
    show (modifyShape s i enterShape).shapes.get? i = _
    unfold modifyShape
    rw [hget]
    exact get?_set_self _ _ _ (lt_of_get? hget)
  have hback : leaveShape (enterShape sh) = sh := by
    show ({ sh with
              transform := jsReplaceFirst (sh.transform ++ scaleToken) scaleToken emptyStr,
              hovered := false } : Shape) = sh
    rw [show jsReplaceFirst (sh.transform ++ scaleToken) scaleToken emptyStr = sh.transform
        from by rw [ht]; decide]
    rw [← hh]
  refine ⟨h1, htok, ?_, ?_, ?_⟩
  · intro a
    rw [htok]
    unfold effectiveTransform
    rw [if_neg (by decide)]
    decide
  · rw [htok]
    decide
  · show (modifyShape (seqStep s (SeqEvent.mouseEnter i)) i leaveShape).shapes.get? i = some sh
    unfold modifyShape
    rw [h1]
    rw [get?_set_self _ _ _ (lt_of_get? h1), hback]

/-- Shape 0 of the freshly loaded page, spelled out for the witness. -/
def witShape : Shape :=
  { classes := ["shape", "dark-red-trapezoid"], movedOut := false, transform := "",
    pointerEvents := "", pendingInert := 0, hovered := false }

/-- C9 witness: hovering shape 0 of the fresh page yields the pure-scale
inline transform (zero rotation even against an authored
`rotate(15deg)`), and leaving restores the shape exactly. -/
theorem C9_hover_rotation_witness :
    (enterShape witShape).transform = scaleToken ∧
    rotationIsZero (effectiveTransform sampleAuthored (enterShape witShape).transform)
      = true ∧
    (seqStep (seqStep (initState removalOrder) (SeqEvent.mouseEnter 0))
        (SeqEvent.mouseLeave 0)).shapes.get? 0 = some witShape := by
  have h := C9_hover_rotation removalOrder (initState removalOrder) 0 witShape
    Reachable.init rfl rfl
  exact ⟨h.2.1, h.2.2.1 sampleAuthored, h.2.2.2.2⟩

/-! ## Claim C6: stage scaler (`setupStageScaling`, lines 359-375) -/

/-- `DESIGN_WIDTH` (line 363). -/
def DESIGN_WIDTH : ℚ := 1480

/-- `DESIGN_HEIGHT` (line 364). -/
def DESIGN_HEIGHT : ℚ := 800

/-- The `rescale` closure body (lines 366-371): contain the composition,
never scale above 1. -/
def rescale (innerWidth innerHeight : ℚ) : ℚ :=
  min (min (innerWidth / DESIGN_WIDTH) (innerHeight / DESIGN_HEIGHT)) 1

/-- The stage's only mutable attribute: its CSS scale transform. -/
structure StageState where
  stageScale : ℚ
deriving DecidableEq

/-- A `resize` event (the handler registered on line 373, also run once at
setup): re-run `rescale` against the event's viewport and write the scale
transform, regardless of the previous stage state. -/
def resizeStep (_s : StageState) (innerWidth innerHeight : ℚ) : StageState :=
  { stageScale := rescale innerWidth innerHeight }

/-- C6: after any resize event the stage scale equals
`min(viewportWidth/1480, viewportHeight/800, 1)`; that value is always
`≤ 1` and equals `min(viewportWidth/1480, viewportHeight/800)` whenever
that minimum is `< 1`; and the written scale depends only on the event's
viewport, not on any previous stage state (no reload needed). -/
theorem C6_stage_scale (s : StageState) (w h : ℚ) :
    (resizeStep s w h).stageScale = min (min (w / 1480) (h / 800)) 1 ∧
    (resizeStep s w h).stageScale ≤ 1 ∧
    (min (w / 1480) (h / 800) < 1 →
      (resizeStep s w h).stageScale = min (w / 1480) (h / 800)) ∧
    (∀ s₂ : StageState, resizeStep s₂ w h = resizeStep s w h) := by
  refine ⟨rfl, min_le_right _ _, ?_, fun s₂ => rfl⟩
  intro hlt
  exact min_eq_left (le_of_lt hlt)

/-- C6 witness: at a 740×800 viewport the minimum is 1/2 < 1 and the
applied scale is exactly that minimum. -/
theorem C6_stage_scale_witness :
    min ((740 : ℚ) / 1480) ((800 : ℚ) / 800) < 1 ∧
    (resizeStep ⟨1⟩ 740 800).stageScale = min ((740 : ℚ) / 1480) ((800 : ℚ) / 800) := by
  have hlt : min ((740 : ℚ) / 1480) ((800 : ℚ) / 800) < 1 := by norm_num
  exact ⟨hlt, (C6_stage_scale ⟨1⟩ 740 800).2.2.1 hlt⟩

/-! ## Claim C5: layout freezer (`freezeCompositionPositions`, lines 331-356)

The source function carries no latch of any kind: both the deferred
`DOMContentLoaded` callback (lines 298-301) and the `load` handler
(lines 305-308) call it unconditionally, and each call re-measures every
element and rewrites its position styles from the fresh measurements. -/

/-- One `getBoundingClientRect` result. -/
structure Rect where
  left : ℚ
  top : ℚ
  width : ℚ
  height : ℚ
deriving DecidableEq

/-- The measurements one freezer pass reads for one element: its own
bounding rect and its `offsetParent`'s rect. -/
structure Measure where
  rect : Rect
  parentLeft : ℚ
  parentTop : ℚ
deriving DecidableEq

/-- The style fields of one frozen element that the freezer writes (the
transform is read by nothing and written by nothing here, kept to show
it is preserved). -/
structure FrozenElem where
  position : String
  left : ℚ
  top : ℚ
  width : ℚ
  height : ℚ
  transform : String
deriving DecidableEq

/-- The layout environment of one freezer invocation: whether
`.art-container` exists, and the per-element measurements in selector
order. -/
structure FreezeEnv where
  stagePresent : Bool
  measures : List Measure
deriving DecidableEq

/-- The per-element body (lines 338-351): write absolute position, the
offset against the positioned ancestor, and explicit pixel size; the
existing transform is untouched. -/
def freezeElem (m : Measure) (el : FrozenElem) : FrozenElem :=
  { el with position := "absolute",
            left := m.rect.left - m.parentLeft,
            top := m.rect.top - m.parentTop,
            width := m.rect.width,
            height := m.rect.height }

/-- `freezeCompositionPositions` (lines 331-356): no-op when the stage is
missing, otherwise rewrite every selected element from the current
measurements. There is no run-once latch. -/
def freezeCompositionPositions (env : FreezeEnv) (els : List FrozenElem) :
    List FrozenElem :=
  if env.stagePresent then List.zipWith freezeElem env.measures els else els

lemma freezeElem_idem (m : Measure) (el : FrozenElem) :
    freezeElem m (freezeElem m el) = freezeElem m el := rfl

lemma zipWith_freeze_idem (ms : List Measure) (els : List FrozenElem) :
    List.zipWith freezeElem ms (List.zipWith freezeElem ms els)
      = List.zipWith freezeElem ms els := by
  induction ms generalizing els with
  | nil => simp
  | cons m ms ih =>
    cases els with
    | nil => simp
    | cons el els => simp [List.zipWith, freezeElem_idem, ih]

/-- A concrete element before freezing. -/
def sampleElem : FrozenElem :=
  { position := "static", left := 0, top := 0, width := 0, height := 0,
    transform := "rotate(15deg)" }

/-- Measurements of the first freezer invocation (pre-scaling layout). -/
def envFirst : FreezeEnv :=
  { stagePresent := true,
    measures := [{ rect := { left := 110, top := 25, width := 50, height := 40 },
                   parentLeft := 10, parentTop := 5 }] }

/-- Measurements of a later invocation after the stage scale transform has
changed every bounding rect (e.g. the `load`-event call after `rescale`
halved the layout). -/
def envLater : FreezeEnv :=
  { stagePresent := true,
    measures := [{ rect := { left := 60, top := 15, width := 25, height := 20 },
                   parentLeft := 10, parentTop := 5 }] }

/-- C5 counterexample: there is no one-shot latch — a later invocation of
`freezeCompositionPositions` (here: the duplicate `load`-event call,
observing the post-scaling bounding rects) does change element positions
after the first successful run. -/
theorem C5_no_latch_counterexample :
    freezeCompositionPositions envLater
        (freezeCompositionPositions envFirst [sampleElem])
      ≠ freezeCompositionPositions envFirst [sampleElem] ∧
    (freezeCompositionPositions envLater
        (freezeCompositionPositions envFirst [sampleElem])).map FrozenElem.left
      ≠ (freezeCompositionPositions envFirst [sampleElem]).map FrozenElem.left := by
  constructor <;>
    · intro hcontra
      simp only [freezeCompositionPositions, envFirst, envLater, sampleElem, freezeElem,
        List.zipWith, if_pos, List.map, FrozenElem.mk.injEq, List.cons.injEq,
        and_true] at hcontra
      norm_num at hcontra

/-- C5 (amended): `freezeCompositionPositions` is not guarded by any
latch; every invocation re-executes the measure-and-write body. It is
idempotent only across invocations that observe identical measurements:
repeating a call with the same environment rewrites the same values (and
never touches an element's transform), while a call under changed
measurements rewrites positions. -/
theorem C5_freeze_fixed_env_idempotent (env : FreezeEnv) (els : List FrozenElem) :
    freezeCompositionPositions env (freezeCompositionPositions env els)
      = freezeCompositionPositions env els := by
  rcases hp : env.stagePresent
  · simp [freezeCompositionPositions, hp]
  · simp [freezeCompositionPositions, hp, zipWith_freeze_idem]

/-! ## Drag controller (`setupBackgroundShapeDragging`, lines 597-729) -/

/-- The style fields of one `.background-shape` that the drag handlers
read or write. -/
structure BgShape where
  left : ℚ
  top : ℚ
  opacity : String
  zIndex : String
deriving DecidableEq

/-- The drag controller state: the background-shape NodeList plus the
closure-local `draggedElement`, `isDragging`, `maxZIndex` and `offset`. -/
structure DragState where
  shapes : List BgShape
  draggedElement : Option Nat
  isDragging : Bool
  maxZIndex : Nat
  offsetX : ℚ
  offsetY : ℚ
deriving DecidableEq

/-- The counter update at drag-end (lines 654-658 and 715-719):
`maxZIndex++`, then wrap to 2 when it reached 10. -/
def wrapZ (m : Nat) : Nat := if 10 ≤ m + 1 then 2 else m + 1

/-- `mousedown`/`touchstart` handler body (lines 609-631, 671-693): latch
the dragged element, record the pointer offset against the shape's
current position relative to the stage rect, and elevate the shape. -/
def dragStart (s : DragState) (i : Nat) (clientX clientY stageLeft stageTop : ℚ) :
    DragState :=
  match s.shapes.get? i with
  | none => s
  | some sh =>
    { s with isDragging := true,
             draggedElement := some i,
             offsetX := clientX - stageLeft - sh.left,
             offsetY := clientY - stageTop - sh.top,
             shapes := s.shapes.set i { sh with opacity := "0.7", zIndex := "100" } }

/-- `mousemove`/`touchmove` handler body (lines 634-649, 696-710): while a
drag is active, reposition the dragged element from the current pointer
coordinates minus the captured offset. -/
def dragMove (s : DragState) (clientX clientY stageLeft stageTop : ℚ) : DragState :=
  if s.isDragging then
    match s.draggedElement with
    | some j =>
      match s.shapes.get? j with
      | some sh =>
        { s with shapes := s.shapes.set j { sh with
            left := clientX - stageLeft - s.offsetX,
            top := clientY - stageTop - s.offsetY } }
      | none => s
    | none => s
  else s

/-- `mouseup`/`touchend` handler body (lines 651-667, 712-728): advance
and wrap the z-index counter, settle opacity, assign the new z-index, and
clear the drag latch. -/
def dragEnd (s : DragState) : DragState :=
  if s.isDragging then
    match s.draggedElement with
    | some j =>
      match s.shapes.get? j with
      | some sh =>
        { s with maxZIndex := wrapZ s.maxZIndex,
                 shapes := s.shapes.set j
                   { sh with opacity := "0.85", zIndex := toString (wrapZ s.maxZIndex) },
                 draggedElement := none,
                 isDragging := false }
      | none =>
        { s with maxZIndex := wrapZ s.maxZIndex, draggedElement := none,
                 isDragging := false }
    | none => s
  else s

/-- The pointer and touch input events of the drag controller. The mouse
and touch handler bodies are textually duplicated in the source with the
same logic, so both constructors of each pair dispatch to the same
function. -/
inductive DragEvent where
  | mouseDown (i : Nat) (clientX clientY stageLeft stageTop : ℚ)
  | mouseMove (clientX clientY stageLeft stageTop : ℚ)
  | mouseUp
  | touchStart (i : Nat) (clientX clientY stageLeft stageTop : ℚ)
  | touchMove (clientX clientY stageLeft stageTop : ℚ)
  | touchEnd
deriving DecidableEq

/-- One step of the drag controller. -/
def dragStep (s : DragState) : DragEvent → DragState
  | .mouseDown i x y sl st => dragStart s i x y sl st
  | .mouseMove x y sl st => dragMove s x y sl st
  | .mouseUp => dragEnd s
  | .touchStart i x y sl st => dragStart s i x y sl st
  | .touchMove x y sl st => dragMove s x y sl st
  | .touchEnd => dragEnd s

/-- Setup state (lines 599-607): no drag active, counter starts at 2,
background shapes at their CSS positions. -/
def initDragState (ps : List (ℚ × ℚ)) : DragState :=
  { shapes := ps.map (fun p =>
      { left := p.1, top := p.2, opacity := "", zIndex := "" }),
    draggedElement := none, isDragging := false, maxZIndex := 2,
    offsetX := 0, offsetY := 0 }

/-- Drag-controller states reachable from setup. -/
inductive DragReachable (ps : List (ℚ × ℚ)) : DragState → Prop where
  | init : DragReachable ps (initDragState ps)
  | step {s : DragState} {e : DragEvent} :
      DragReachable ps s → DragReachable ps (dragStep s e)

/-- Shape `i` is in active-drag state. -/
def dragActive (s : DragState) (i : Nat) : Prop :=
  s.isDragging = true ∧ s.draggedElement = some i

/-- The position of background shape `k`. -/
def posOf (s : DragState) (k : Nat) : Option (ℚ × ℚ) :=
  (s.shapes.get? k).map (fun b => (b.left, b.top))

/-! ### The z-index counter invariant -/

lemma wrapZ_bounds {m : Nat} (h2 : 2 ≤ m) (h9 : m ≤ 9) :
    2 ≤ wrapZ m ∧ wrapZ m ≤ 9 := by
  unfold wrapZ
  split <;> omega

lemma wrapZ_no_wrap {m : Nat} (h : m < 9) : wrapZ m = m + 1 := by
  unfold wrapZ
  split <;> omega

/-- The counter stays within `[2, 9]`. -/
def DragInv (s : DragState) : Prop := 2 ≤ s.maxZIndex ∧ s.maxZIndex ≤ 9

lemma dragStart_maxZ (s : DragState) (i : Nat) (x y sl st : ℚ) :
    (dragStart s i x y sl st).maxZIndex = s.maxZIndex := by
  unfold dragStart
  split <;> rfl

lemma dragMove_maxZ (s : DragState) (x y sl st : ℚ) :
    (dragMove s x y sl st).maxZIndex = s.maxZIndex := by
  unfold dragMove
  split
  · split
    · split <;> rfl
    · rfl
  · rfl

lemma dragInv_dragEnd {s : DragState} (h : DragInv s) : DragInv (dragEnd s) := by
  unfold dragEnd
  split
  · split
    · split
      · exact wrapZ_bounds h.1 h.2
      · exact wrapZ_bounds h.1 h.2
    · exact h
  · exact h

lemma dragInv_step {s : DragState} (e : DragEvent) (h : DragInv s) :
    DragInv (dragStep s e) := by
  cases e with
  | mouseDown i x y sl st =>
    have hz := dragStart_maxZ s i x y sl st
    exact ⟨hz ▸ h.1, hz ▸ h.2⟩
  | touchStart i x y sl st =>
    have hz := dragStart_maxZ s i x y sl st
    exact ⟨hz ▸ h.1, hz ▸ h.2⟩
  | mouseMove x y sl st =>
    have hz := dragMove_maxZ s x y sl st
    exact ⟨hz ▸ h.1, hz ▸ h.2⟩
  | touchMove x y sl st =>
    have hz := dragMove_maxZ s x y sl st
    exact ⟨hz ▸ h.1, hz ▸ h.2⟩
  | mouseUp => exact dragInv_dragEnd h
  | touchEnd => exact dragInv_dragEnd h

lemma dragInv_reachable {ps : List (ℚ × ℚ)} {s : DragState}
    (h : DragReachable ps s) : DragInv s := by
  induction h with
  | init => exact ⟨Nat.le_refl 2, by norm_num [initDragState]⟩
  | step _ ih => exact dragInv_step _ ih

/-- C7: in every reachable drag-controller state the z-index counter lies
in `[2, 9]`; at a drag-end (mouse or touch, which behave identically) the
counter advances by 1 while below 9 and wraps to 2 from 9, and the ended
shape is assigned exactly that counter value as its z-index — always in
`[2, 9]`, strictly below the interactive shapes' z-order 10. -/
theorem C7_dragend_zindex {ps : List (ℚ × ℚ)} {s : DragState}
    (h : DragReachable ps s) :
    (2 ≤ s.maxZIndex ∧ s.maxZIndex ≤ 9) ∧
    (∀ (j : Nat) (sh : BgShape), s.isDragging = true → s.draggedElement = some j →
      s.shapes.get? j = some sh →
      dragStep s DragEvent.touchEnd = dragStep s DragEvent.mouseUp ∧
      (dragStep s DragEvent.mouseUp).maxZIndex = wrapZ s.maxZIndex ∧
      2 ≤ (dragStep s DragEvent.mouseUp).maxZIndex ∧
      (dragStep s DragEvent.mouseUp).maxZIndex ≤ 9 ∧
      (dragStep s DragEvent.mouseUp).shapes.get? j
        = some { sh with opacity := "0.85",
                         zIndex := toString (dragStep s DragEvent.mouseUp).maxZIndex } ∧
      (s.maxZIndex < 9 → (dragStep s DragEvent.mouseUp).maxZIndex = s.maxZIndex + 1) ∧
      (s.maxZIndex = 9 → (dragStep s DragEvent.mouseUp).maxZIndex = 2)) := by
  have hinv := dragInv_reachable h
  refine ⟨hinv, ?_⟩
  intro j sh hd hde hget
  have hstep : dragStep s DragEvent.mouseUp =
      { s with maxZIndex := wrapZ s.maxZIndex,
               shapes := s.shapes.set j
                 { sh with opacity := "0.85", zIndex := toString (wrapZ s.maxZIndex) },
               draggedElement := none,
               isDragging := false } := by
    show dragEnd s = _
    simp only [dragEnd, hd, hde, hget, if_true]
  refine ⟨rfl, by rw [hstep], ?_, ?_, ?_, ?_, ?_⟩
  · rw [hstep]
    exact (wrapZ_bounds hinv.1 hinv.2).1
  · rw [hstep]
    exact (wrapZ_bounds hinv.1 hinv.2).2
  · rw [hstep]
    exact get?_set_self _ _ _ (lt_of_get? hget)
  · intro hlt
    rw [hstep]
    exact wrapZ_no_wrap hlt
  · intro h9
    rw [hstep, h9]
    rfl

/-- A one-background-shape setup with a drag in progress, for witnesses. -/
def dragWitState : DragState :=
  dragStep (initDragState [(0, 0)]) (DragEvent.mouseDown 0 3 4 0 0)

/-- The dragged shape of `dragWitState`. -/
def dragWitShape : BgShape :=
  { left := 0, top := 0, opacity := "0.7", zIndex := "100" }

/-- C7 witness: ending the in-progress drag of `dragWitState` assigns
counter value 3, inside `[2, 9]`, and touch-end agrees with mouse-up. -/
theorem C7_dragend_zindex_witness :
    2 ≤ (dragStep dragWitState DragEvent.mouseUp).maxZIndex ∧
    (dragStep dragWitState DragEvent.mouseUp).maxZIndex ≤ 9 ∧
    (dragStep dragWitState DragEvent.mouseUp).maxZIndex = 3 ∧
    dragStep dragWitState DragEvent.touchEnd = dragStep dragWitState DragEvent.mouseUp := by
  have hr : DragReachable [((0 : ℚ), (0 : ℚ))] dragWitState :=
    DragReachable.step DragReachable.init
  have h := (C7_dragend_zindex hr).2 0 dragWitShape rfl rfl rfl
  refine ⟨h.2.2.1, h.2.2.2.1, ?_, h.1⟩
  exact h.2.2.2.2.2.1 (by show (2 : Nat) < 9; norm_num)

/-- C8: at most one background shape is ever in active-drag state (the
shared `isDragging`/`draggedElement` pair can only designate one element);
a drag-start changes no shape's position, a move while shape `k` is not
the dragged element leaves `k`'s position unchanged, and a drag-end
changes no shape's position — so starting and running a new drag never
alters the previously settled shape's position. -/
theorem C8_single_active_drag :
    (∀ (s : DragState) (i j : Nat), dragActive s i → dragActive s j → i = j) ∧
    (∀ (s : DragState) (i : Nat) (x y sl st : ℚ) (k : Nat),
        posOf (dragStep s (DragEvent.mouseDown i x y sl st)) k = posOf s k ∧
        posOf (dragStep s (DragEvent.touchStart i x y sl st)) k = posOf s k) ∧
    (∀ (s : DragState) (x y sl st : ℚ) (k : Nat), s.draggedElement ≠ some k →
        posOf (dragStep s (DragEvent.mouseMove x y sl st)) k = posOf s k ∧
        posOf (dragStep s (DragEvent.touchMove x y sl st)) k = posOf s k) ∧
    (∀ (s : DragState) (k : Nat),
        posOf (dragStep s DragEvent.mouseUp) k = posOf s k ∧
        posOf (dragStep s DragEvent.touchEnd) k = posOf s k) := by
  have hset : ∀ (s : DragState) (j : Nat) (sh sh₂ : BgShape) (k : Nat),
      s.shapes.get? j = some sh → sh₂.left = sh.left → sh₂.top = sh.top →
      ((s.shapes.set j sh₂).get? k).map (fun b => (b.left, b.top))
        = (s.shapes.get? k).map (fun b => (b.left, b.top)) := by
    intro s j sh sh₂ k hget hl ht
    by_cases hjk : j = k
    · subst hjk
      rw [get?_set_self _ _ _ (lt_of_get? hget), hget]
      simp [hl, ht]
    · rw [get?_set_of_ne _ _ hjk]
  have hsetne : ∀ (s : DragState) (j : Nat) (sh₂ : BgShape) (k : Nat), j ≠ k →
      ((s.shapes.set j sh₂).get? k).map (fun b => (b.left, b.top))
        = (s.shapes.get? k).map (fun b => (b.left, b.top)) := by
    intro s j sh₂ k hjk
    rw [get?_set_of_ne _ _ hjk]
  have hstart : ∀ (s : DragState) (i : Nat) (x y sl st : ℚ) (k : Nat),
      posOf (dragStart s i x y sl st) k = posOf s k := by
    intro s i x y sl st k
    unfold dragStart
    split
    · rfl
    next sh hget => exact hset s i sh _ k hget rfl rfl
  have hmove : ∀ (s : DragState) (x y sl st : ℚ) (k : Nat),
      s.draggedElement ≠ some k → posOf (dragMove s x y sl st) k = posOf s k := by
    intro s x y sl st k hne
    unfold dragMove
    split
    · split
      next j hde =>
        split
        next sh hget =>
          have hjk : j ≠ k := fun hh => hne (hh ▸ hde)
          exact hsetne s j _ k hjk
        · rfl
      · rfl
    · rfl
  have hend : ∀ (s : DragState) (k : Nat), posOf (dragEnd s) k = posOf s k := by
    intro s k
    unfold dragEnd
    split
    · split
      next j hde =>
        split
        next sh hget => exact hset s j sh _ k hget rfl rfl
        · rfl
      · rfl
    · rfl
  refine ⟨?_, ?_, ?_, ?_⟩
  · rintro s i j ⟨_, h1⟩ ⟨_, h2⟩
    rw [h1] at h2
    exact Option.some.inj h2
  · intro s i x y sl st k
    exact ⟨hstart s i x y sl st k, hstart s i x y sl st k⟩
  · intro s x y sl st k hne
    exact ⟨hmove s x y sl st k hne, hmove s x y sl st k hne⟩
  · intro s k
    exact ⟨hend s k, hend s k⟩

/-- C8 witness: at most one active drag in the concrete dragging state,
and a move event aimed while shape 0 is not dragged leaves shape 0's
position unchanged. -/
theorem C8_single_active_drag_witness :
    (0 : Nat) = 0 ∧
    posOf (dragStep (initDragState [(0, 0)]) (DragEvent.mouseMove 5 6 0 0)) 0
      = posOf (initDragState [(0, 0)]) 0 :=
  ⟨C8_single_active_drag.1 dragWitState 0 0 ⟨rfl, rfl⟩ ⟨rfl, rfl⟩,
   (C8_single_active_drag.2.2.1 (initDragState [(0, 0)]) 5 6 0 0 0
      (by decide)).1⟩

end Gehry
